import Mathlib

/-!
Verification of the load-balancing provider plugin
(`load_balance_service.py`, `load_balancer_strategies.py`,
`load_balancer_provider.py`) against its natural-language specification.

The Python code is shallowly embedded: providers are records carrying the
observable behaviour a single request can see, the per-node statistics are
exact rationals standing for the Python floats, and the dispatch loop is a
fuel-indexed recursive function (the fuel is the length of the frozen
candidate list, which bounds the Python `while` loop because every failing
iteration removes the selected provider from the list).
-/

namespace LB

/-- A backend provider (a node), as one request observes it: its stable id
(`provider.meta().id`), the chunks its call yields before finishing, and
whether the call raises after those chunks.  For a single-shot call the
raise happens at the `await`, before anything is yielded, so a failing
single-shot provider has `chunks = []`. -/
structure Prov where
  id : String
  chunks : List Nat
  fails : Bool
deriving DecidableEq, Repr

/-- One `provider_stats` entry: `{"success": 0, "failure": 0, "latency": 0.0,
"throughput": 0.0}`.  Python floats are modelled as exact rationals. -/
structure NodeStats where
  success : Nat
  failure : Nat
  latency : ℚ
  throughput : ℚ
deriving DecidableEq, Repr

/-- The `defaultdict` default for `provider_stats`. -/
def defaultStats : NodeStats := ⟨0, 0, 0, 0⟩

/-- `provider_stats` as a total map (the `defaultdict` semantics). -/
def emptyStats : String → NodeStats := fun _ => defaultStats

/-- `provider_health` as a total map; `provider_health.get(pid, True)`
defaults to healthy. -/
def emptyHealth : String → Bool := fun _ => true

/-- Lookup in the Python dict comprehension
`{provider.meta().id: provider for provider in providers}`: later entries
overwrite earlier ones, so a lookup returns the last provider with the id. -/
def providerMapLookup (providers : List Prov) (pid : String) : Option Prov :=
  providers.reverse.find? (fun p => p.id = pid)

/-- `LoadBalanceService._get_providers_with_order`: when `fallback_order` is
non-empty, collect the providers it names (in that order, skipping unknown
ids); the branch appending the providers not named by `fallback_order` is
commented out in the source, and when `fallback_order` is empty the result
list stays empty. -/
def getProvidersWithOrder (providers : List Prov) (fallbackOrder : List String) :
    List Prov :=
  if fallbackOrder.isEmpty then []
  else fallbackOrder.filterMap (providerMapLookup providers)

/-- `LoadBalancerProvider._load_other_providers`: drop the router itself,
then, when a fallback order is configured and the strategy is not
"weighted", reorder by the fallback order and append the providers it does
not name, in discovery order. -/
def loadOtherProviders (allInstances : List Prov) (selfId : String)
    (fallbackOrder : List String) (strategy : String) : List Prov :=
  let ps := allInstances.filter (fun p => p.id ≠ selfId)
  if ¬ fallbackOrder.isEmpty ∧ strategy ≠ "weighted" then
    fallbackOrder.filterMap (providerMapLookup ps) ++
      ps.filter (fun p => ¬ fallbackOrder.contains p.id)
  else ps

/-- `LoadBalanceService._get_healthy_providers`; `health pid` models
`self.provider_health.get(pid, True)`. -/
def getHealthyProviders (health : String → Bool) (providers : List Prov) :
    List Prov :=
  providers.filter (fun p => health p.id)

/-- `LoadBalanceService._record_failure` applied to the state (the body of
the queued update): increment the failure counter, then mark the node
unhealthy when `failure/(success+failure) > FAILURE_RATE_THRESHOLD` (0.5)
or when `failure >= MAX_CONSECUTIVE_FAILURES` (3) with no success;
otherwise the health map is not written. -/
def recordFailureApply (stats : String → NodeStats) (health : String → Bool)
    (pid : String) : (String → NodeStats) × (String → Bool) :=
  let st := stats pid
  let st2 : NodeStats := { st with failure := st.failure + 1 }
  let total : ℚ := (st2.success : ℚ) + (st2.failure : ℚ)
  let failureRate : ℚ := if total > 0 then (st2.failure : ℚ) / total else 0
  let health2 :=
    if failureRate > 1/2 then Function.update health pid false
    else if st2.failure ≥ 3 ∧ st2.success = 0 then Function.update health pid false
    else health
  (Function.update stats pid st2, health2)

/-- `LoadBalanceService._record_success` applied to the state: increment the
success counter, EWMA-update latency and throughput with `alpha = 0.5`
(taking the raw sample when the stored value is `0`), and mark the node
healthy. -/
def recordSuccessApply (stats : String → NodeStats) (health : String → Bool)
    (pid : String) (latency : ℚ) (tokens : ℚ) :
    (String → NodeStats) × (String → Bool) :=
  let st := stats pid
  let alpha : ℚ := 1/2
  let newLatency :=
    if st.latency = 0 then latency else alpha * latency + (1 - alpha) * st.latency
  let tp : ℚ := if latency > 0 then tokens / latency else 0
  let newTp :=
    if st.throughput = 0 then tp else alpha * tp + (1 - alpha) * st.throughput
  let st2 : NodeStats :=
    { st with success := st.success + 1, latency := newLatency, throughput := newTp }
  (Function.update stats pid st2, Function.update health pid true)

/-- A stats update enqueued by the dispatch loop.  In the source the success
update also carries the elapsed wall-clock time and the token/size count;
no claim constrains those payloads, so the record keeps only the node id. -/
inductive StatsRec where
  | success (pid : String)
  | failure (pid : String)
deriving DecidableEq, Repr

/-- Terminal outcome of the dispatch core. -/
inductive CoreErr where
  | noProvider
  | lastError (pid : String)
  | outOfFuel
deriving DecidableEq, Repr

inductive CoreOutcome where
  | ok
  | error (e : CoreErr)
deriving DecidableEq, Repr

/-- Observable result of `_execute_with_load_balance_core`: the chunks the
async generator yielded to its caller in order, the stats updates it
enqueued in order, and how it finished. -/
structure CoreResult where
  emitted : List Nat
  records : List StatsRec
  outcome : CoreOutcome
deriving DecidableEq, Repr

/-- The `while available_providers:` loop of
`_execute_with_load_balance_core`, for a deterministic strategy `select`
and a fixed health snapshot (the stats-queue consumer applies updates
asynchronously, so within one request the health map read at line 98 is
the last committed snapshot; claims are stated against a fixed snapshot).
Each iteration: filter to healthy candidates, ask the strategy, fall back
to the first unfiltered candidate when the strategy returns none, run the
call.  On success the yielded chunks and one success record are appended
and the loop returns; on failure the chunks yielded before the raise and
one failure record are appended, the selected provider is removed
(`list.remove`: first occurrence), and the loop either re-raises (list
now empty) or retries.  The fuel bounds the recursion; callers pass the
list length, which suffices because `select` below always returns a
member of the list. -/
def coreLoop (select : List Prov → Option Prov) (health : String → Bool) :
    Nat → List Prov → List Nat → List StatsRec → CoreResult
  | 0, _, emitted, records => ⟨emitted, records, .error .outOfFuel⟩
  | _ + 1, [], emitted, records => ⟨emitted, records, .ok⟩
  | fuel + 1, a :: rest, emitted, records =>
    let healthyAvailable := (a :: rest).filter (fun p => health p.id)
    let selected :=
      match select healthyAvailable with
      | some p => p
      | none => a
    if selected.fails then
      let emitted2 := emitted ++ selected.chunks
      let records2 := records ++ [.failure selected.id]
      let available2 := (a :: rest).erase selected
      if available2.isEmpty then ⟨emitted2, records2, .error (.lastError selected.id)⟩
      else coreLoop select health fuel available2 emitted2 records2
    else
      ⟨emitted ++ selected.chunks, records ++ [.success selected.id], .ok⟩

/-- `_execute_with_load_balance_core`: freeze the candidate list via
`_get_providers_with_order`, raise "no provider" when it is empty, else
run the retry loop. -/
def executeCore (select : List Prov → Option Prov) (health : String → Bool)
    (workProviders : List Prov) (fallbackOrder : List String) : CoreResult :=
  let available := getProvidersWithOrder workProviders fallbackOrder
  if available.isEmpty then ⟨[], [], .error .noProvider⟩
  else coreLoop select health available.length available [] []

/-- `execute_with_load_balance_and_fallback`: collect the yielded chunks and
return the first one (or none); an error from the core propagates. -/
def executeSingle (select : List Prov → Option Prov) (health : String → Bool)
    (workProviders : List Prov) (fallbackOrder : List String) :
    Except CoreErr (Option Nat) :=
  let r := executeCore select health workProviders fallbackOrder
  match r.outcome with
  | .ok => .ok r.emitted.head?
  | .error e => .error e

/-- `execute_with_load_balance_and_fallback_stream` forwards every chunk the
core yields, as it is yielded; the caller-visible stream and records are
exactly those of the core. -/
def executeStream (select : List Prov → Option Prov) (health : String → Bool)
    (workProviders : List Prov) (fallbackOrder : List String) : CoreResult :=
  executeCore select health workProviders fallbackOrder

/-- A deterministic strategy that picks candidates in list order (the
instantiation the claims about the retry loop use). -/
def headSelect (providers : List Prov) : Option Prov :=
  providers.head?

/-! ## Strategies (`load_balancer_strategies.py`) -/

/-- `RoundRobinStrategy.select_provider`: one call, given the current
cursor (`self.current_index`); returns the pick and the new cursor.  The
per-call `asyncio.Lock` serializes calls, so consecutive calls see the
cursor updates in order. -/
def roundRobinSelect (providers : List Prov) (cursor : Nat) :
    Option Prov × Nat :=
  if providers.isEmpty then (none, cursor)
  else (providers.get? (cursor % providers.length),
        (cursor + 1) % providers.length)

/-- `k` consecutive uninterleaved `RoundRobinStrategy.select_provider` calls
on a fixed candidate list, threading the cursor. -/
def roundRobinRun (providers : List Prov) : Nat → Nat → List (Option Prov)
  | _, 0 => []
  | cursor, k + 1 =>
    let s := roundRobinSelect providers cursor
    s.1 :: roundRobinRun providers s.2 k

/-- One entry of the `lb_weights` config dict (`weights.values()` in
insertion order).  `weight` is the result of `int(cfg.get("weight", 1))`:
`some w` when the parse succeeds (a missing key parses as `1`), `none`
when it raises `ValueError`/`TypeError` (unparsable). -/
structure WeightCfg where
  provider : String
  weight : Option Int
deriving DecidableEq, Repr

/-- The weight `WeightedStrategy.select_provider` resolves for a provider:
the first config entry naming the provider's id, defaulting to 1 when no
entry names it or its weight is unparsable. -/
def resolvedWeight (weights : List WeightCfg) (p : Prov) : Int :=
  match weights.find? (fun c => c.provider = p.id) with
  | none => 1
  | some c => c.weight.getD 1

/-- The `for provider in providers` loop of
`WeightedStrategy.select_provider` that builds `weighted_list` (pairs of a
provider and its cumulative end weight) and `total_weight`, starting from
accumulator `total`; providers with resolved weight `<= 0` are skipped. -/
def buildWeighted (weights : List WeightCfg) : Nat → List Prov →
    List (Prov × Nat) × Nat
  | total, [] => ([], total)
  | total, p :: ps =>
    let w := resolvedWeight weights p
    if 0 < w then
      let t2 := total + w.toNat
      let r := buildWeighted weights t2 ps
      ((p, t2) :: r.1, r.2)
    else buildWeighted weights total ps

/-- The scan `for provider, end_weight in weighted_list: if random_weight <
end_weight: return provider`. -/
def pickByWeight (wl : List (Prov × Nat)) (draw : Nat) : Option Prov :=
  (wl.find? (fun pe => draw < pe.2)).map (fun pe => pe.1)

/-- `WeightedStrategy.select_provider`, with the uniform draw
`random.randint(0, total_weight - 1)` passed in as `draw` and the fallback
round-robin cursor as `rrCursor`.  Empty candidate list returns none; no
configured weights, zero total weight, or an exhausted scan delegate to
the owned round-robin strategy. -/
def weightedSelect (rrCursor : Nat) (providers : List Prov)
    (weights : List WeightCfg) (draw : Nat) : Option Prov :=
  if providers.isEmpty then none
  else if weights.isEmpty then (roundRobinSelect providers rrCursor).1
  else
    let bw := buildWeighted weights 0 providers
    if bw.2 = 0 then (roundRobinSelect providers rrCursor).1
    else
      match pickByWeight bw.1 draw with
      | some p => some p
      | none => (roundRobinSelect providers rrCursor).1

/-- Cumulative-weight intervals of `weighted_list`: each entry with its
half-open interval `[start, end)`, starts chained from `acc`. -/
def withStarts (acc : Nat) : List (Prov × Nat) → List (Prov × Nat × Nat)
  | [] => []
  | (p, e) :: rest => (p, acc, e) :: withStarts e rest

/-- The end weights of a `weighted_list` strictly ascend from `acc`. -/
def AscendsFrom : Nat → List (Prov × Nat) → Prop
  | _, [] => True
  | acc, (_, e) :: rest => acc < e ∧ AscendsFrom e rest

/-! ## Exploration strategies (least-failure / fastest) -/

/-- `LeastFailureStrategy.calculate_base_score`: success rate when the node
was attempted, else the optimistic default 1.0. -/
noncomputable def leastFailureBase (st : NodeStats) : ℝ :=
  if 0 < st.success + st.failure
  then (st.success : ℝ) / ((st.success : ℝ) + (st.failure : ℝ))
  else 1

/-- `FastestStrategy.calculate_base_score`: the raw throughput EWMA
(`provider_stat.get("throughput", 0)`; the entry for an untouched node has
throughput 0). -/
noncomputable def fastestBase (st : NodeStats) : ℝ :=
  (st.throughput : ℝ)

/-- The per-provider score of `ExplorationStrategy.select_provider`: base
score plus the exploration bonus
`factor * sqrt(log(total+1)/total)` when `total > 0`, else `factor * 10`. -/
noncomputable def explorationScore (baseScore : NodeStats → ℝ) (factor : ℝ)
    (st : NodeStats) : ℝ :=
  let totalSelections := st.success + st.failure
  let bonus :=
    if 0 < totalSelections
    then factor * Real.sqrt (Real.log ((totalSelections : ℝ) + 1) / (totalSelections : ℝ))
    else factor * 10
  baseScore st + bonus

/-- The weighted-random scan of `ExplorationStrategy.select_provider`:
accumulate scores and return the first provider whose cumulative score
reaches the draw `r` (`if random_score <= current_score: return`). -/
noncomputable def cumulativePick (r : ℝ) : ℝ → List (Prov × ℝ) → Option Prov
  | _, [] => none
  | current, (p, s) :: rest =>
    if r ≤ current + s then some p else cumulativePick r (current + s) rest

/-- `ExplorationStrategy.select_provider`, with the draw
`random.uniform(0, total_score)` passed as `r` and the `random.choice`
fallback index passed as `choice`.  `stats pid` models
`stats.get(pid, {"success": 0, "failure": 0})` (an absent entry behaves as
the default stats record). -/
noncomputable def explorationSelect (baseScore : NodeStats → ℝ) (factor : ℝ)
    (stats : String → NodeStats) (providers : List Prov) (r : ℝ)
    (choice : Nat) : Option Prov :=
  if providers.isEmpty then none
  else
    let scores := providers.map fun p => (p, explorationScore baseScore factor (stats p.id))
    let total := (scores.map fun ps => ps.2).sum
    if 0 < total then
      match cumulativePick r 0 scores with
      | some p => some p
      | none => providers.get? (choice % providers.length)
    else providers.get? (choice % providers.length)

/-! ## Stats tracker queue and shutdown (`queue_consumer` / `terminate`) -/

/-- A queued stats update (the `(func, args, kwargs)` tuples put on
`stats_queue`). -/
inductive SUpdate where
  | success (pid : String) (latency : ℚ) (tokens : ℚ)
  | failure (pid : String)
  | resetFailure (pid : String)
deriving DecidableEq, Repr

/-- State of `stats_queue` and its consumer: the items enqueued but not yet
fetched, the items the consumer has applied, and the queue's
unfinished-task counter (incremented by `put_nowait`, decremented by
`task_done`; `join()` returns when it reaches 0). -/
structure TrackerState where
  queued : List SUpdate
  applied : List SUpdate
  unfinished : Nat
deriving DecidableEq, Repr

/-- `queue_product` (used by `record_success` / `record_failure` /
`reset_failure_count`): `put_nowait`. -/
def enqueueUpdate (st : TrackerState) (u : SUpdate) : TrackerState :=
  { st with queued := st.queued ++ [u], unfinished := st.unfinished + 1 }

/-- One normal iteration of `queue_consumer`: `get`, apply the update,
`task_done`. -/
def consumerStep (st : TrackerState) : TrackerState :=
  match st.queued with
  | [] => st
  | u :: rest =>
    { queued := rest, applied := st.applied ++ [u], unfinished := st.unfinished - 1 }

/-- `stats_queue.join()` returns exactly when the unfinished-task counter
is zero. -/
def joinCompletes (st : TrackerState) : Bool :=
  st.unfinished == 0

/-- `LoadBalanceService.terminate`: `stats_task.cancel()` makes
`queue_consumer` catch `asyncio.CancelledError` and `break`, so after the
`await self.stats_task` no `consumerStep` ever runs again and nothing else
calls `task_done`; the final `await self.stats_queue.join()` therefore
returns, and `terminate` completes, exactly when the unfinished-task
counter at cancellation time is already zero. -/
def terminateCompletes (st : TrackerState) : Bool :=
  joinCompletes st

/-! ## Claim C1: ordering of the frozen candidate list -/

/-- When the ids in `ws` are distinct, the dict lookup on a member's own id
returns that member. -/
theorem providerMapLookup_self (ws : List Prov) (hnd : (ws.map Prov.id).Nodup)
    (p : Prov) (hp : p ∈ ws) : providerMapLookup ws p.id = some p := by
  have hm : p ∈ ws.reverse := by simpa using hp
  have hsome : (ws.reverse.find? (fun q => q.id = p.id)).isSome := by
    rw [List.find?_isSome]
    exact ⟨p, hm, by simp⟩
  obtain ⟨q, hq⟩ := Option.isSome_iff_exists.mp hsome
  have hqid : q.id = p.id := by
    have := List.find?_some hq
    simpa using this
  have hqmem : q ∈ ws := by
    have := List.mem_of_find?_eq_some hq
    simpa using this
  have : q = p := List.inj_on_of_nodup_map hnd hqmem hp hqid
  rw [providerMapLookup, hq, this]

/-- C1 (amended): the frozen candidate list taken at the start of the
dispatch loop is the configured fallback order mapped to the discovered
nodes (in fallback order, skipping ids with no node); nodes not named in
the fallback order are excluded rather than appended, and the list is
empty when no fallback order is configured. -/
theorem frozen_candidates_order (ws : List Prov) (fb : List String) :
    (fb = [] → getProvidersWithOrder ws fb = []) ∧
    getProvidersWithOrder ws fb = fb.filterMap (providerMapLookup ws) ∧
    ((ws.map Prov.id).Nodup →
      ∀ p : Prov, p ∈ getProvidersWithOrder ws fb ↔ p ∈ ws ∧ p.id ∈ fb) := by
  have heq : getProvidersWithOrder ws fb = fb.filterMap (providerMapLookup ws) := by
    cases fb <;> simp [getProvidersWithOrder]
  refine ⟨fun h => by simp [h, getProvidersWithOrder], heq, fun hnd p => ?_⟩
  rw [heq, List.mem_filterMap]
  constructor
  · rintro ⟨pid, hpid, hlook⟩
    have hmem : p ∈ ws.reverse := List.mem_of_find?_eq_some hlook
    have hid : p.id = pid := by
      have := List.find?_some hlook
      simpa using this
    exact ⟨by simpa using hmem, hid ▸ hpid⟩
  · rintro ⟨hmem, hid⟩
    exact ⟨p.id, hid, providerMapLookup_self ws hnd p hmem⟩

/-- C1 witness: a concrete instantiation of `frozen_candidates_order`. -/
theorem frozen_candidates_order_witness :
    getProvidersWithOrder [⟨"a", [], false⟩] [] = [] ∧
    ((⟨"b", [], false⟩ : Prov) ∈
        getProvidersWithOrder [⟨"a", [], false⟩, ⟨"b", [], false⟩] ["b"] ↔
      (⟨"b", [], false⟩ : Prov) ∈ ([⟨"a", [], false⟩, ⟨"b", [], false⟩] : List Prov) ∧
        "b" ∈ ["b"]) := by
  refine ⟨(frozen_candidates_order [⟨"a", [], false⟩] []).1 rfl, ?_⟩
  exact (frozen_candidates_order [⟨"a", [], false⟩, ⟨"b", [], false⟩] ["b"]).2.2
    (by decide) ⟨"b", [], false⟩

/-- C1 counterexample: with discovery order `[self, a]` and no configured
fallback order the frozen candidate list is empty, not the discovery-order
list `[a]`; and with fallback order `["b"]` over discovered nodes
`[a, b]`, the node `a` (not named in the order) is dropped, not appended. -/
theorem frozen_candidates_counterexample :
    loadOtherProviders [⟨"self", [], false⟩, ⟨"a", [], false⟩] "self" [] "random" =
      [⟨"a", [], false⟩] ∧
    getProvidersWithOrder [⟨"a", [], false⟩] [] = [] ∧
    ([] : List Prov) ≠ [⟨"a", [], false⟩] ∧
    getProvidersWithOrder [⟨"a", [], false⟩, ⟨"b", [], false⟩] ["b"] =
      [⟨"b", [], false⟩] ∧
    ([⟨"b", [], false⟩] : List Prov) ≠ [⟨"b", [], false⟩, ⟨"a", [], false⟩] := by
  decide

/-! ## Claim C2: tracker shutdown with pending queued updates -/

/-- C2 (code bug): with one update still enqueued (and none in flight) when
`terminate` runs, the cancelled consumer never applies it, so the
unfinished-task counter stays at 1 and `stats_queue.join()` — hence
`terminate` — never completes; had the consumer been allowed one more
iteration before cancellation (drain-then-cancel), the update would have
been applied and the join would complete. -/
theorem terminate_hangs_with_pending_update :
    terminateCompletes ⟨[SUpdate.failure "a"], [], 1⟩ = false ∧
    (⟨[SUpdate.failure "a"], [], 1⟩ : TrackerState).applied = [] ∧
    joinCompletes (consumerStep ⟨[SUpdate.failure "a"], [], 1⟩) = true ∧
    (consumerStep ⟨[SUpdate.failure "a"], [], 1⟩).applied = [SUpdate.failure "a"] := by
  decide

/-! ## Claim C4: failure recording and the health filter -/

/-- The health map written by `recordFailureApply`, characterized by the
claim's demotion condition on the post-update counters. -/
theorem record_failure_health_eq (stats : String → NodeStats)
    (health : String → Bool) (pid : String) :
    (recordFailureApply stats health pid).2 =
      if (((stats pid).failure : ℚ) + 1) /
            (((stats pid).success : ℚ) + (((stats pid).failure : ℚ) + 1)) > 1/2 ∨
          ((stats pid).failure + 1 ≥ 3 ∧ (stats pid).success = 0)
      then Function.update health pid false else health := by
  have htot : ((stats pid).success : ℚ) + (((stats pid).failure : ℚ) + 1) > 0 := by
    positivity
  simp only [recordFailureApply]
  push_cast
  rw [if_pos htot]
  by_cases hA : (((stats pid).failure : ℚ) + 1) /
      (((stats pid).success : ℚ) + (((stats pid).failure : ℚ) + 1)) > 1/2
  · rw [if_pos hA, if_pos (Or.inl hA)]
  · rw [if_neg hA]
    by_cases hB : (stats pid).failure + 1 ≥ 3 ∧ (stats pid).success = 0
    · rw [if_pos hB, if_pos (Or.inr hB)]
    · rw [if_neg hB, if_neg (by tauto)]

/-- C4: after a `recordFailure` update for a node is applied, its counters
show one more failure; the health flag is set to false when
`failure/(success+failure) > 1/2` or `failure ≥ 3 ∧ success = 0` (on the
post-update counters), and the whole health map is left unchanged
otherwise; any node whose health flag is false is excluded by the
healthy-candidate filter. -/
theorem record_failure_health_update (stats : String → NodeStats)
    (health : String → Bool) (pid : String) :
    (recordFailureApply stats health pid).1 pid =
      { stats pid with failure := (stats pid).failure + 1 } ∧
    (((((stats pid).failure : ℚ) + 1) /
          (((stats pid).success : ℚ) + (((stats pid).failure : ℚ) + 1)) > 1/2 ∨
        ((stats pid).failure + 1 ≥ 3 ∧ (stats pid).success = 0)) →
      (recordFailureApply stats health pid).2 pid = false) ∧
    (¬ ((((stats pid).failure : ℚ) + 1) /
          (((stats pid).success : ℚ) + (((stats pid).failure : ℚ) + 1)) > 1/2 ∨
        ((stats pid).failure + 1 ≥ 3 ∧ (stats pid).success = 0)) →
      (recordFailureApply stats health pid).2 = health) ∧
    (∀ (providers : List Prov) (p : Prov),
      (recordFailureApply stats health pid).2 p.id = false →
      p ∉ getHealthyProviders (recordFailureApply stats health pid).2 providers) := by
  refine ⟨by simp [recordFailureApply], ?_, ?_, ?_⟩
  · intro hcond
    rw [record_failure_health_eq, if_pos hcond]
    simp [Function.update]
  · intro hcond
    rw [record_failure_health_eq, if_neg hcond]
  · intro providers p hp
    simp [getHealthyProviders, List.mem_filter, hp]

/-- C4 witness: a first failure on a fresh node gives failure rate 1 > 1/2,
so the node is demoted and then excluded by the healthy filter. -/
theorem record_failure_health_update_witness :
    (recordFailureApply emptyStats emptyHealth "a").2 "a" = false ∧
    (⟨"a", [], false⟩ : Prov) ∉ getHealthyProviders
      (recordFailureApply emptyStats emptyHealth "a").2 [⟨"a", [], false⟩] := by
  have h := record_failure_health_update emptyStats emptyHealth "a"
  have hcond : (((emptyStats "a").failure : ℚ) + 1) /
        (((emptyStats "a").success : ℚ) + (((emptyStats "a").failure : ℚ) + 1)) > 1/2 ∨
      ((emptyStats "a").failure + 1 ≥ 3 ∧ (emptyStats "a").success = 0) := by
    left
    norm_num [emptyStats, defaultStats]
  have hfalse := h.2.1 hcond
  exact ⟨hfalse, h.2.2.2 [⟨"a", [], false⟩] ⟨"a", [], false⟩ hfalse⟩

/-! ## Claim C6: latency EWMA on success -/

/-- C6 (amended): an applied `recordSuccess` sets the latency EWMA to the
observed latency when the stored EWMA is 0 — which is the case on the
first sample — and to `0.5*latency + 0.5*previous` otherwise; for the
concrete sequence of latencies 2.0 then 4.0 from fresh stats the EWMA is
2.0 then 3.0. -/
theorem record_success_latency_ewma (stats : String → NodeStats)
    (health : String → Bool) (pid : String) (latency tokens : ℚ) :
    ((stats pid).latency = 0 →
      ((recordSuccessApply stats health pid latency tokens).1 pid).latency = latency) ∧
    ((stats pid).latency ≠ 0 →
      ((recordSuccessApply stats health pid latency tokens).1 pid).latency =
        1/2 * latency + 1/2 * (stats pid).latency) ∧
    ((recordSuccessApply emptyStats emptyHealth pid 2 tokens).1 pid).latency = 2 ∧
    ((recordSuccessApply (recordSuccessApply emptyStats emptyHealth pid 2 tokens).1
        emptyHealth pid 4 tokens).1 pid).latency = 3 := by
  refine ⟨fun h => ?_, fun h => ?_, ?_, ?_⟩
  · simp [recordSuccessApply, h]
  · simp only [recordSuccessApply, Function.update_same]
    rw [if_neg h]
    ring
  · simp [recordSuccessApply, emptyStats, defaultStats]
  · simp only [recordSuccessApply, Function.update_same, emptyStats, defaultStats]
    norm_num

/-- C6 witness: a concrete instantiation of `record_success_latency_ewma`
at a node whose stored EWMA is 0 and at one whose stored EWMA is 2. -/
theorem record_success_latency_ewma_witness :
    ((recordSuccessApply emptyStats emptyHealth "a" 2 1).1 "a").latency = 2 ∧
    ((recordSuccessApply (recordSuccessApply emptyStats emptyHealth "a" 2 1).1
        emptyHealth "a" 4 1).1 "a").latency = 1/2 * 4 + 1/2 * 2 := by
  have h1 := (record_success_latency_ewma emptyStats emptyHealth "a" 2 1).1
    (by simp [emptyStats, defaultStats])
  have h2 := (record_success_latency_ewma
      (recordSuccessApply emptyStats emptyHealth "a" 2 1).1 emptyHealth "a" 4 1).2.1
    (by rw [h1]; norm_num)
  rw [h2, h1]
  exact ⟨h1, rfl⟩

/-- C6 counterexample (to the claim as stated): if the first recorded
sample has latency 0, the second `recordSuccess` is not the first sample
(the success counter is already 1) yet the EWMA becomes the raw new
latency 4, not `0.5*4 + 0.5*0 = 2`, because the code tests
`current_latency == 0` rather than "first sample". -/
theorem record_success_first_sample_counterexample :
    (((recordSuccessApply emptyStats emptyHealth "a" 0 1).1 "a").success = 1) ∧
    (((recordSuccessApply emptyStats emptyHealth "a" 0 1).1 "a").latency = 0) ∧
    (((recordSuccessApply (recordSuccessApply emptyStats emptyHealth "a" 0 1).1
        emptyHealth "a" 4 1).1 "a").latency = 4) ∧
    (4 : ℚ) ≠ 1/2 * 4 + 1/2 * 0 := by
  refine ⟨by simp [recordSuccessApply, emptyStats, defaultStats], ?_, ?_, by norm_num⟩
  · simp [recordSuccessApply, emptyStats, defaultStats]
  · simp [recordSuccessApply, emptyStats, defaultStats]

/-! ## Claim C5: two failures then a success -/

/-- C5: with three candidates picked in list order, where the first two
invocations fail (single-shot, so nothing is yielded before the raise) and
the third succeeds with result `r`, `execute` returns the third node's
result, and the enqueued records are exactly one failure for each of the
first two nodes followed by one success for the third. -/
theorem execute_three_two_fail_one_succeeds (a b c : Prov) (r : Nat)
    (ha : a.fails = true) (hb : b.fails = true) (hc : c.fails = false)
    (hca : a.chunks = []) (hcb : b.chunks = []) (hcc : c.chunks = [r])
    (hab : a.id ≠ b.id) (hac : a.id ≠ c.id) (hbc : b.id ≠ c.id) :
    executeSingle headSelect emptyHealth [a, b, c] [a.id, b.id, c.id] =
      .ok (some r) ∧
    (executeCore headSelect emptyHealth [a, b, c] [a.id, b.id, c.id]).records =
      [.failure a.id, .failure b.id, .success c.id] := by
  have hcore : executeCore headSelect emptyHealth [a, b, c] [a.id, b.id, c.id] =
      ⟨[r], [.failure a.id, .failure b.id, .success c.id], .ok⟩ := by
    simp [executeCore, getProvidersWithOrder, providerMapLookup, coreLoop,
      headSelect, emptyHealth, ha, hb, hc, hca, hcb, hcc, hab, hac, hbc,
      Ne.symm hab, Ne.symm hac, Ne.symm hbc, List.find?, List.erase_cons_head]
  exact ⟨by simp [executeSingle, hcore], by rw [hcore]⟩

/-- C5 witness: a concrete instantiation of
`execute_three_two_fail_one_succeeds`. -/
theorem execute_three_two_fail_one_succeeds_witness :
    executeSingle headSelect emptyHealth
      [⟨"a", [], true⟩, ⟨"b", [], true⟩, ⟨"c", [42], false⟩] ["a", "b", "c"] =
      .ok (some 42) ∧
    (executeCore headSelect emptyHealth
      [⟨"a", [], true⟩, ⟨"b", [], true⟩, ⟨"c", [42], false⟩]
      ["a", "b", "c"]).records =
      [.failure "a", .failure "b", .success "c"] :=
  execute_three_two_fail_one_succeeds ⟨"a", [], true⟩ ⟨"b", [], true⟩
    ⟨"c", [42], false⟩ 42 rfl rfl rfl rfl rfl rfl (by decide) (by decide)
    (by decide)

/-! ## Claim C3: streaming failure after partial chunks -/

/-- C3 (amended): in a streaming execution where the selected node's stream
raises after yielding its chunks, the engine records exactly one failure
for that node and retries the request from the start on the next
candidate; the partial chunks of the failed attempt, however, have already
been forwarded to the caller as they were produced (the caller-visible
stream is the failed attempt's partial chunks followed by the retry
node's full stream; the partial chunks are not re-emitted on the retry,
but they are not discarded either). -/
theorem stream_failure_records_and_retries (a b : Prov)
    (ha : a.fails = true) (hlen : a.chunks.length = 2) (hb : b.fails = false)
    (hab : a.id ≠ b.id) :
    executeStream headSelect emptyHealth [a, b] [a.id, b.id] =
      ⟨a.chunks ++ b.chunks, [.failure a.id, .success b.id], .ok⟩ := by
  simp [executeStream, executeCore, getProvidersWithOrder, providerMapLookup,
    coreLoop, headSelect, emptyHealth, ha, hb, hab, Ne.symm hab, List.find?,
    List.erase_cons_head]

/-- C3 witness: a concrete instantiation of
`stream_failure_records_and_retries`. -/
theorem stream_failure_records_and_retries_witness :
    executeStream headSelect emptyHealth
      [⟨"a", [1, 2], true⟩, ⟨"b", [3], false⟩] ["a", "b"] =
      ⟨[1, 2, 3], [.failure "a", .success "b"], .ok⟩ :=
  stream_failure_records_and_retries ⟨"a", [1, 2], true⟩ ⟨"b", [3], false⟩
    rfl rfl rfl (by decide)

/-- C3 counterexample (to the claim as stated): the caller of the stream
receives the two chunks the failed node yielded before raising — the
stream is `[1, 2, 3]`, not just the retry node's `[3]` — so the partial
chunks of the failed attempt are not discarded with respect to the
caller. -/
theorem stream_partial_chunks_not_discarded :
    (executeStream headSelect emptyHealth
        [⟨"a", [1, 2], true⟩, ⟨"b", [3], false⟩] ["a", "b"]).emitted =
      [1, 2, 3] ∧
    ([1, 2, 3] : List Nat) ≠ [3] := by
  decide

/-! ## Claim C10: exploration strategies always return a candidate -/

/-- The least-failure base score (a success rate, or the optimistic
default 1.0) is nonnegative. -/
theorem leastFailureBase_nonneg (st : NodeStats) : 0 ≤ leastFailureBase st := by
  unfold leastFailureBase
  split_ifs
  · positivity
  · norm_num

/-- The fastest base score is nonnegative whenever the stored throughput
EWMA is. -/
theorem fastestBase_nonneg (st : NodeStats) (h : 0 ≤ st.throughput) :
    0 ≤ fastestBase st := by
  unfold fastestBase
  exact_mod_cast h

/-- Every exploration score is strictly positive when the base score is
nonnegative: the exploration bonus is `factor * 10 > 0` for an untried
node and `factor * sqrt(log(total+1)/total) > 0` otherwise. -/
theorem explorationScore_pos (baseScore : NodeStats → ℝ) (factor : ℝ)
    (hf : 0 < factor) (st : NodeStats) (hbase : 0 ≤ baseScore st) :
    0 < explorationScore baseScore factor st := by
  simp only [explorationScore]
  apply add_pos_of_nonneg_of_pos hbase
  split_ifs with ht
  · apply mul_pos hf
    apply Real.sqrt_pos.mpr
    apply div_pos
    · apply Real.log_pos
      have h1 : (0 : ℝ) < ((st.success + st.failure : ℕ) : ℝ) := by
        exact_mod_cast ht
      linarith
    · exact_mod_cast ht
  · positivity

/-- The total score of a non-empty candidate list is strictly positive
when every base score is nonnegative. -/
theorem exploration_total_pos (baseScore : NodeStats → ℝ) (factor : ℝ)
    (stats : String → NodeStats) (providers : List Prov)
    (hne : providers ≠ []) (hf : 0 < factor)
    (hbase : ∀ p ∈ providers, 0 ≤ baseScore (stats p.id)) :
    0 < (((providers.map fun p =>
        (p, explorationScore baseScore factor (stats p.id)))).map
      (fun ps => ps.2)).sum := by
  apply List.sum_pos
  · intro x hx
    simp only [List.map_map, List.mem_map, Function.comp_apply] at hx
    obtain ⟨p, hp, rfl⟩ := hx
    exact explorationScore_pos baseScore factor hf _ (hbase p hp)
  · simp [hne]

/-- A provider returned by the cumulative scan comes from the score
list. -/
theorem cumulativePick_mem_of_some (r : ℝ) :
    ∀ (scores : List (Prov × ℝ)) (current : ℝ) (p : Prov),
      cumulativePick r current scores = some p →
      p ∈ scores.map (fun ps => ps.1) := by
  intro scores
  induction scores with
  | nil => intro current p h; simp [cumulativePick] at h
  | cons ps rest ih =>
    intro current p h
    obtain ⟨q, s⟩ := ps
    simp only [cumulativePick] at h
    split_ifs at h with hc
    · cases h
      simp
    · have := ih (current + s) p h
      simp only [List.map_cons, List.mem_cons]
      right
      exact this

/-- `ExplorationStrategy.select_provider` on a non-empty candidate list
always returns some member of the list, whatever the draw and fallback
choice. -/
theorem explorationSelect_mem (baseScore : NodeStats → ℝ) (factor : ℝ)
    (stats : String → NodeStats) (providers : List Prov) (r : ℝ)
    (choice : Nat) (hne : providers ≠ []) :
    ∃ p ∈ providers,
      explorationSelect baseScore factor stats providers r choice = some p := by
  have hlen : 0 < providers.length := List.length_pos.mpr hne
  have hlt : choice % providers.length < providers.length := Nat.mod_lt _ hlen
  have hget : providers.get? (choice % providers.length) =
      some (providers.get ⟨choice % providers.length, hlt⟩) :=
    List.get?_eq_get hlt
  have hprov : ¬ providers.isEmpty := by simpa using hne
  simp only [explorationSelect, hprov, Bool.false_eq_true, if_false]
  by_cases htot : 0 < (((providers.map fun p =>
      (p, explorationScore baseScore factor (stats p.id)))).map
    (fun ps => ps.2)).sum
  · rw [if_pos htot]
    rcases hpick : cumulativePick r 0 (providers.map fun p =>
        (p, explorationScore baseScore factor (stats p.id))) with _ | p
    · exact ⟨providers.get ⟨choice % providers.length, hlt⟩,
        List.get_mem _ _ _, hget⟩
    · refine ⟨p, ?_, rfl⟩
      have := cumulativePick_mem_of_some r _ 0 p hpick
      simpa [List.map_map] using this
  · rw [if_neg htot]
    exact ⟨providers.get ⟨choice % providers.length, hlt⟩,
      List.get_mem _ _ _, hget⟩

/-- C10: for every non-empty candidate list, the least-failure and fastest
strategies (with the configured exploration factor 2.0) have strictly
positive total score — every candidate's base-plus-bonus score is
strictly positive, so the zero-total-score uniform-random fallback branch
is unreachable — and `select_provider` returns some candidate from the
list, never none.  (For the fastest strategy the stored throughput EWMAs
are assumed nonnegative, as every recorded throughput sample is.) -/
theorem exploration_strategies_total (stats : String → NodeStats)
    (providers : List Prov) (r : ℝ) (choice : Nat) (hne : providers ≠ [])
    (htp : ∀ pid, 0 ≤ (stats pid).throughput) :
    (0 < (((providers.map fun p =>
        (p, explorationScore leastFailureBase 2 (stats p.id)))).map
      (fun ps => ps.2)).sum) ∧
    (0 < (((providers.map fun p =>
        (p, explorationScore fastestBase 2 (stats p.id)))).map
      (fun ps => ps.2)).sum) ∧
    (∃ p ∈ providers,
      explorationSelect leastFailureBase 2 stats providers r choice = some p) ∧
    (∃ p ∈ providers,
      explorationSelect fastestBase 2 stats providers r choice = some p) :=
  ⟨exploration_total_pos leastFailureBase 2 stats providers hne (by norm_num)
      (fun p _ => leastFailureBase_nonneg (stats p.id)),
   exploration_total_pos fastestBase 2 stats providers hne (by norm_num)
      (fun p _ => fastestBase_nonneg (stats p.id) (htp p.id)),
   explorationSelect_mem leastFailureBase 2 stats providers r choice hne,
   explorationSelect_mem fastestBase 2 stats providers r choice hne⟩

/-- C10 witness: a concrete instantiation of
`exploration_strategies_total` on a single fresh candidate. -/
theorem exploration_strategies_total_witness :
    (0 < ((([⟨"a", [], false⟩] : List Prov).map fun p =>
        (p, explorationScore leastFailureBase 2 (emptyStats p.id))).map
      (fun ps => ps.2)).sum) ∧
    (0 < ((([⟨"a", [], false⟩] : List Prov).map fun p =>
        (p, explorationScore fastestBase 2 (emptyStats p.id))).map
      (fun ps => ps.2)).sum) ∧
    (∃ p ∈ ([⟨"a", [], false⟩] : List Prov),
      explorationSelect leastFailureBase 2 emptyStats [⟨"a", [], false⟩] 0 0 =
        some p) ∧
    (∃ p ∈ ([⟨"a", [], false⟩] : List Prov),
      explorationSelect fastestBase 2 emptyStats [⟨"a", [], false⟩] 0 0 =
        some p) :=
  exploration_strategies_total emptyStats [⟨"a", [], false⟩] 0 0 (by decide)
    (fun _ => le_refl 0)

/-! ## Claim C9: empty candidate list at loop start -/

/-- C9: when the frozen candidate list is empty at the start of the
dispatch loop, the core fails immediately with the no-provider error,
yielding nothing and recording nothing. -/
theorem execute_empty_candidates_no_provider (select : List Prov → Option Prov)
    (health : String → Bool) (ws : List Prov) (fb : List String)
    (h : getProvidersWithOrder ws fb = []) :
    executeCore select health ws fb = ⟨[], [], .error .noProvider⟩ := by
  simp [executeCore, h]

/-! ## Claim C7: round-robin full cycle -/

/-- On a non-empty list a round-robin call returns the candidate at
`cursor % len` and advances the cursor modulo `len`. -/
theorem roundRobinSelect_eq (providers : List Prov) (hne : providers ≠ [])
    (cursor : Nat) :
    roundRobinSelect providers cursor =
      (providers.get? (cursor % providers.length),
       (cursor + 1) % providers.length) := by
  cases providers with
  | nil => exact absurd rfl hne
  | cons p ps => rfl

/-- `k` consecutive round-robin calls pick the entries at indices
`cursor + i (mod len)`. -/
theorem roundRobinRun_eq_map (providers : List Prov) (hne : providers ≠ [])
    (k cursor : Nat) :
    roundRobinRun providers cursor k =
      (List.range k).map
        (fun i => providers.get? ((cursor + i) % providers.length)) := by
  induction k generalizing cursor with
  | zero => simp [roundRobinRun]
  | succ n ih =>
    rw [roundRobinRun, roundRobinSelect_eq providers hne, ih,
      List.range_succ_eq_map]
    simp only [List.map_cons, List.map_map]
    refine congrArg₂ _ (by rw [Nat.add_zero]) ?_
    apply List.map_congr_left
    intro i _
    simp only [Function.comp_apply]
    rw [Nat.mod_add_mod, Nat.add_assoc, Nat.add_comm 1 i]

/-- A full cycle of round-robin calls, starting at any cursor, lists the
candidate list rotated by the cursor. -/
theorem roundRobinRun_cycle_eq_rotate (providers : List Prov)
    (hne : providers ≠ []) (cursor : Nat) :
    roundRobinRun providers cursor providers.length =
      (providers.rotate cursor).map some := by
  rw [roundRobinRun_eq_map providers hne]
  have hlen : ((providers.rotate cursor).map some).length = providers.length := by
    simp
  apply List.ext_get (by simpa using hlen.symm)
  intro i h1 h2
  have hi : i < providers.length := by simpa using h1
  have hmod : (cursor + i) % providers.length < providers.length :=
    Nat.mod_lt _ (List.length_pos.mpr hne)
  rw [List.get_map, List.get_map, List.get_rotate]
  simp only [List.get_range, Fin.val_mk]
  rw [List.get?_eq_get hmod]
  simp [Nat.add_comm]

/-- C7: for every fixed non-empty candidate list, `len` consecutive
uninterleaved round-robin selections return every candidate exactly once
(the run is a permutation of the list); each call returns the candidate at
`cursor % len` and then increments the cursor modulo `len`. -/
theorem round_robin_full_cycle (providers : List Prov) (cursor : Nat)
    (hne : providers ≠ []) :
    (roundRobinRun providers cursor providers.length).Perm
      (providers.map some) ∧
    roundRobinSelect providers cursor =
      (providers.get? (cursor % providers.length),
       (cursor + 1) % providers.length) := by
  refine ⟨?_, roundRobinSelect_eq providers hne cursor⟩
  rw [roundRobinRun_cycle_eq_rotate providers hne]
  exact (List.rotate_perm providers cursor).map some

/-! ## Claim C8: weighted-random selection -/

/-- `buildWeighted` never decreases the running total. -/
theorem buildWeighted_acc_le (weights : List WeightCfg) :
    ∀ (ps : List Prov) (acc : Nat), acc ≤ (buildWeighted weights acc ps).2 := by
  intro ps
  induction ps with
  | nil => intro acc; simp [buildWeighted]
  | cons p ps ih =>
    intro acc
    simp only [buildWeighted]
    by_cases hw : 0 < resolvedWeight weights p
    · rw [if_pos hw]
      exact le_trans (Nat.le_add_right _ _) (ih _)
    · rw [if_neg hw]
      exact ih acc

/-- The cumulative end weights built by `buildWeighted` strictly ascend. -/
theorem buildWeighted_ascends (weights : List WeightCfg) :
    ∀ (ps : List Prov) (acc : Nat),
      AscendsFrom acc (buildWeighted weights acc ps).1 := by
  intro ps
  induction ps with
  | nil => intro acc; simp [buildWeighted, AscendsFrom]
  | cons p ps ih =>
    intro acc
    simp only [buildWeighted]
    by_cases hw : 0 < resolvedWeight weights p
    · rw [if_pos hw]
      simp only [AscendsFrom]
      exact ⟨by omega, ih _⟩
    · rw [if_neg hw]
      exact ih acc

/-- When the draw lies below the final total, the scan of the weighted
list returns the entry whose cumulative interval contains the draw. -/
theorem pickByWeight_mem (weights : List WeightCfg) :
    ∀ (ps : List Prov) (acc draw : Nat), acc ≤ draw →
      draw < (buildWeighted weights acc ps).2 →
      ∃ p s e, (p, s, e) ∈ withStarts acc (buildWeighted weights acc ps).1 ∧
        s ≤ draw ∧ draw < e ∧
        pickByWeight (buildWeighted weights acc ps).1 draw = some p := by
  intro ps
  induction ps with
  | nil =>
    intro acc draw h1 h2
    simp [buildWeighted] at h2
    omega
  | cons p ps ih =>
    intro acc draw h1 h2
    simp only [buildWeighted] at h2 ⊢
    by_cases hw : 0 < resolvedWeight weights p
    · rw [if_pos hw] at h2 ⊢
      by_cases hd : draw < acc + (resolvedWeight weights p).toNat
      · refine ⟨p, acc, acc + (resolvedWeight weights p).toNat, ?_, h1, hd, ?_⟩
        · simp [withStarts]
        · simp [pickByWeight, List.find?_cons, hd]
      · obtain ⟨q, s, e, hmem, hs, he, hpick⟩ :=
          ih (acc + (resolvedWeight weights p).toNat) draw (by omega)
            (by simpa using h2)
        refine ⟨q, s, e, ?_, hs, he, ?_⟩
        · simp only [withStarts, List.mem_cons]
          right
          simpa using hmem
        · simp only [pickByWeight, List.find?_cons] at hpick ⊢
          simp only [hd, decide_eq_true_eq, if_neg, decide_eq_false_iff_not]
          simpa [hd] using hpick
    · rw [if_neg hw] at h2 ⊢
      exact ih acc draw h1 h2

/-- Every interval produced by `withStarts` starts at or after the chained
accumulator, provided the end weights ascend. -/
theorem withStarts_start_ge :
    ∀ (wl : List (Prov × Nat)) (acc : Nat), AscendsFrom acc wl →
      ∀ qse ∈ withStarts acc wl, acc ≤ qse.2.1 := by
  intro wl
  induction wl with
  | nil => intro acc _ qse h; simp [withStarts] at h
  | cons pe rest ih =>
    intro acc hasc qse hmem
    obtain ⟨p, e⟩ := pe
    simp only [AscendsFrom] at hasc
    simp only [withStarts, List.mem_cons] at hmem
    rcases hmem with rfl | hmem
    · simp
    · have := ih e hasc.2 qse hmem
      omega

/-- With ascending end weights the cumulative intervals are pairwise
disjoint: at most one contains any draw. -/
theorem withStarts_interval_unique :
    ∀ (wl : List (Prov × Nat)) (acc draw : Nat), AscendsFrom acc wl →
      ∀ pse ∈ withStarts acc wl, ∀ qse ∈ withStarts acc wl,
        pse.2.1 ≤ draw → draw < pse.2.2 → qse.2.1 ≤ draw → draw < qse.2.2 →
        pse = qse := by
  intro wl
  induction wl with
  | nil => intro acc draw _ pse h; simp [withStarts] at h
  | cons pe rest ih =>
    intro acc draw hasc pse hpmem qse hqmem hps hpe hqs hqe
    obtain ⟨p, e⟩ := pe
    simp only [AscendsFrom] at hasc
    simp only [withStarts, List.mem_cons] at hpmem hqmem
    rcases hpmem with rfl | hpmem <;> rcases hqmem with rfl | hqmem
    · rfl
    · exfalso
      have hge := withStarts_start_ge rest e hasc.2 qse hqmem
      simp only at hpe
      omega
    · exfalso
      have hge := withStarts_start_ge rest e hasc.2 pse hpmem
      simp only at hqe
      omega
    · exact ih e draw hasc.2 pse hpmem qse hqmem hps hpe hqs hqe

/-- C8: in weighted-random selection, a candidate with no config entry or
an unparsable weight resolves to weight 1; with no configured weights, or
a total weight of 0, selection delegates to the owned round-robin
strategy; otherwise, for any draw in `[0, totalWeight)`, selection
returns exactly the candidate whose cumulative-weight interval contains
the draw. -/
theorem weighted_select_spec :
    (∀ (weights : List WeightCfg) (p : Prov),
      weights.find? (fun c => c.provider = p.id) = none →
      resolvedWeight weights p = 1) ∧
    (∀ (weights : List WeightCfg) (cfg : WeightCfg) (p : Prov),
      weights.find? (fun c => c.provider = p.id) = some cfg →
      cfg.weight = none → resolvedWeight weights p = 1) ∧
    (∀ (rrCursor : Nat) (providers : List Prov) (draw : Nat),
      weightedSelect rrCursor providers [] draw =
        (roundRobinSelect providers rrCursor).1) ∧
    (∀ (rrCursor : Nat) (providers : List Prov) (weights : List WeightCfg)
        (draw : Nat), (buildWeighted weights 0 providers).2 = 0 →
      weightedSelect rrCursor providers weights draw =
        (roundRobinSelect providers rrCursor).1) ∧
    (∀ (rrCursor : Nat) (providers : List Prov) (weights : List WeightCfg)
        (draw : Nat), weights ≠ [] →
      draw < (buildWeighted weights 0 providers).2 →
      ∃ p s e,
        (p, s, e) ∈ withStarts 0 (buildWeighted weights 0 providers).1 ∧
        s ≤ draw ∧ draw < e ∧
        weightedSelect rrCursor providers weights draw = some p ∧
        (∀ q s2 e2,
          (q, s2, e2) ∈ withStarts 0 (buildWeighted weights 0 providers).1 →
          s2 ≤ draw → draw < e2 → (q, s2, e2) = (p, s, e))) := by
  refine ⟨?_, ?_, ?_, ?_, ?_⟩
  · intro weights p hfind
    simp [resolvedWeight, hfind]
  · intro weights cfg p hfind hnone
    simp [resolvedWeight, hfind, hnone]
  · intro rrCursor providers draw
    cases providers with
    | nil => simp [weightedSelect, roundRobinSelect]
    | cons p ps => simp [weightedSelect]
  · intro rrCursor providers weights draw htot
    by_cases hp : providers.isEmpty
    · have hnil : providers = [] := by simpa using hp
      subst hnil
      simp [weightedSelect, roundRobinSelect]
    · by_cases hwts : weights.isEmpty
      · simp [weightedSelect, hp, hwts]
      · simp [weightedSelect, hp, hwts, htot]
  · intro rrCursor providers weights draw hw hdraw
    have hprov : ¬ providers.isEmpty := by
      intro hemp
      have hnil : providers = [] := by simpa using hemp
      subst hnil
      simp [buildWeighted] at hdraw
    have hwts : ¬ weights.isEmpty := by
      intro h
      exact hw (by simpa using h)
    have htot : ¬ (buildWeighted weights 0 providers).2 = 0 := by omega
    obtain ⟨p, s, e, hmem, hs, he, hpick⟩ :=
      pickByWeight_mem weights providers 0 draw (Nat.zero_le _) hdraw
    refine ⟨p, s, e, hmem, hs, he, ?_, ?_⟩
    · simp [weightedSelect, hprov, hwts, htot, hpick]
    · intro q s2 e2 hqmem hqs hqe
      exact withStarts_interval_unique (buildWeighted weights 0 providers).1 0
        draw (buildWeighted_ascends weights providers 0) (q, s2, e2) hqmem
        (p, s, e) hmem hqs hqe hs he

/-- C8 witness: weights 2 and 3 over two candidates give the cumulative
intervals `[0,2)` and `[2,5)`; the draw 3 falls in the second interval and
selects the second candidate. -/
theorem weighted_select_spec_witness :
    ∃ p s e,
      (p, s, e) ∈ withStarts 0 (buildWeighted
        [⟨"a", some 2⟩, ⟨"b", some 3⟩] 0
        [⟨"a", [], false⟩, ⟨"b", [], false⟩]).1 ∧
      s ≤ 3 ∧ 3 < e ∧
      weightedSelect 0 [⟨"a", [], false⟩, ⟨"b", [], false⟩]
        [⟨"a", some 2⟩, ⟨"b", some 3⟩] 3 = some p ∧
      (∀ q s2 e2,
        (q, s2, e2) ∈ withStarts 0 (buildWeighted
          [⟨"a", some 2⟩, ⟨"b", some 3⟩] 0
          [⟨"a", [], false⟩, ⟨"b", [], false⟩]).1 →
        s2 ≤ 3 → 3 < e2 → (q, s2, e2) = (p, s, e)) :=
  weighted_select_spec.2.2.2.2 0 [⟨"a", [], false⟩, ⟨"b", [], false⟩]
    [⟨"a", some 2⟩, ⟨"b", some 3⟩] 3 (by decide) (by decide)

/-- C7 witness: a concrete instantiation of `round_robin_full_cycle` on a
two-candidate list starting at cursor 0. -/
theorem round_robin_full_cycle_witness :
    (roundRobinRun [⟨"a", [], false⟩, ⟨"b", [], false⟩] 0
        ([⟨"a", [], false⟩, ⟨"b", [], false⟩] : List Prov).length).Perm
      (([⟨"a", [], false⟩, ⟨"b", [], false⟩] : List Prov).map some) ∧
    roundRobinSelect [⟨"a", [], false⟩, ⟨"b", [], false⟩] 0 =
      (([⟨"a", [], false⟩, ⟨"b", [], false⟩] : List Prov).get?
        (0 % ([⟨"a", [], false⟩, ⟨"b", [], false⟩] : List Prov).length),
       (0 + 1) % ([⟨"a", [], false⟩, ⟨"b", [], false⟩] : List Prov).length) :=
  round_robin_full_cycle [⟨"a", [], false⟩, ⟨"b", [], false⟩] 0 (by decide)

/-- C9 witness: no fallback order configured gives an empty frozen list,
so the dispatch fails with the no-provider error and no records. -/
theorem execute_empty_candidates_no_provider_witness :
    getProvidersWithOrder [⟨"a", [], false⟩] [] = [] ∧
    executeCore headSelect emptyHealth [⟨"a", [], false⟩] [] =
      ⟨[], [], .error .noProvider⟩ :=
  ⟨rfl, execute_empty_candidates_no_provider headSelect emptyHealth
    [⟨"a", [], false⟩] [] rfl⟩

end LB
